import Mathlib

/-!
Verification of the kaller-v3 real-time spoken-dialogue bridge.

The development shallowly embeds the conversation-turn orchestrator:

* `services/transcription-service.js` — the Deepgram event handler that
  accumulates `is_final` transcript segments and emits finalized utterances
  (`handleDgEvent`, `runDgEvents`);
* `services/gpt-service.js` — the GPT streaming loop with tool-call
  execution (`validateFunctionArgs`, `updateUserContext`, `runChunks`,
  `completionGo`, `completion`);
* `app.js` — the WebSocket wiring for barge-in interruption
  (`utteranceHandler`, `markMessageHandler`).

JavaScript string primitives used by the source (`trim`, `slice(-1)`,
`indexOf`, `lastIndexOf`, `substring`) are embedded as `js*` helpers, and
`JSON.parse` is embedded as the executable parser `jsonParse` (ECMA-404
grammar with the whole-input requirement, `none` standing for a thrown
`SyntaxError`).
-/

/-! ## JavaScript string primitives -/

/-- The whitespace class of JavaScript `String.prototype.trim` (the common
members: space, tab, LF, CR, VT, FF, NBSP, BOM). -/
def jsWhitespace (c : Char) : Bool :=
  c == ' ' || c == '\t' || c == '\n' || c == '\r' ||
  c.toNat == 11 || c.toNat == 12 || c.toNat == 160 || c.toNat == 0xFEFF

/-- JavaScript `s.trim()`. -/
def jsTrim (s : String) : String :=
  String.mk ((((s.data.dropWhile jsWhitespace).reverse).dropWhile jsWhitespace).reverse)

/-- JavaScript `s.slice(-1)`: the last character as a one-character string,
`""` on the empty string. -/
def jsSliceLast1 (s : String) : String :=
  match s.data.getLast? with
  | some c => String.mk [c]
  | none => ""

/-- JavaScript `s.indexOf(c)` for a one-character needle: the first index,
`-1` when absent. -/
def jsIndexOf (s : String) (c : Char) : Int :=
  match s.data.findIdx? (fun x => x == c) with
  | some i => (i : Int)
  | none => -1

/-- JavaScript `s.lastIndexOf(c)` for a one-character needle. -/
def jsLastIndexOf (s : String) (c : Char) : Int :=
  match s.data.reverse.findIdx? (fun x => x == c) with
  | some i => (s.data.length : Int) - 1 - (i : Int)
  | none => -1

/-- Clamp an ECMAScript index argument into `[0, len]`. -/
def jsClamp (x : Int) (len : Nat) : Nat :=
  if x < 0 then 0 else min x.toNat len

/-- JavaScript `s.substring(a, b)`: both ends clamped, swapped when out of
order. -/
def jsSubstring (s : String) (a b : Int) : String :=
  let len := s.data.length
  let a' := jsClamp a len
  let b' := jsClamp b len
  let lo := min a' b'
  let hi := max a' b'
  String.mk ((s.data.drop lo).take (hi - lo))

/-- JavaScript `text?.length > n` for an optional string (`undefined > n` is
false). -/
def jsOptLenGt (t : Option String) (n : Nat) : Bool :=
  match t with
  | some s => decide (n < s.data.length)
  | none => false

/-! ## `JSON.parse` -/

/-- A parsed JSON value. Numbers are kept as their lexical token. -/
inductive Json where
  | null
  | bool (b : Bool)
  | num (lexeme : String)
  | str (s : String)
  | arr (elems : List Json)
  | obj (members : List (String × Json))

/-- Skip the JSON whitespace characters (space, tab, LF, CR). -/
def skipWs : List Char → List Char
  | c :: rest =>
    if c == ' ' || c == '\t' || c == '\n' || c == '\r' then skipWs rest
    else c :: rest
  | [] => []

/-- The value of one hex digit. -/
def hexVal (c : Char) : Option Nat :=
  if '0' ≤ c ∧ c ≤ '9' then some (c.toNat - '0'.toNat)
  else if 'a' ≤ c ∧ c ≤ 'f' then some (c.toNat - 'a'.toNat + 10)
  else if 'A' ≤ c ∧ c ≤ 'F' then some (c.toNat - 'A'.toNat + 10)
  else none

/-- The body of a JSON string literal, after the opening quote: the decoded
string and the input after the closing quote. Control characters are
refused, escapes are decoded. -/
def parseStringBody (acc : List Char) (cs : List Char) : Option (String × List Char) :=
  match cs with
  | [] => none
  | '\"' :: rest => some (String.mk acc.reverse, rest)
  | '\\' :: e :: rest =>
    match e with
    | '\"' => parseStringBody ('\"' :: acc) rest
    | '\\' => parseStringBody ('\\' :: acc) rest
    | '/' => parseStringBody ('/' :: acc) rest
    | 'b' => parseStringBody (Char.ofNat 8 :: acc) rest
    | 'f' => parseStringBody (Char.ofNat 12 :: acc) rest
    | 'n' => parseStringBody ('\n' :: acc) rest
    | 'r' => parseStringBody ('\r' :: acc) rest
    | 't' => parseStringBody ('\t' :: acc) rest
    | 'u' =>
      match rest with
      | h1 :: h2 :: h3 :: h4 :: rest2 =>
        match hexVal h1, hexVal h2, hexVal h3, hexVal h4 with
        | some a, some b, some c, some d =>
          parseStringBody (Char.ofNat (((a * 16 + b) * 16 + c) * 16 + d) :: acc) rest2
        | _, _, _, _ => none
      | _ => none
    | _ => none
  | '\\' :: [] => none
  | c :: rest =>
    if c.toNat < 32 then none else parseStringBody (c :: acc) rest

/-- Split a leading run of decimal digits. -/
def jsonDigits (cs : List Char) : List Char × List Char :=
  (cs.takeWhile (fun c => c.isDigit), cs.dropWhile (fun c => c.isDigit))

/-- The optional fraction part of a JSON number. -/
def parseFrac (cs : List Char) : Option (List Char × List Char) :=
  match cs with
  | '.' :: r =>
    let p := jsonDigits r
    if p.1.isEmpty then none else some ('.' :: p.1, p.2)
  | _ => some ([], cs)

/-- The optional exponent part of a JSON number. -/
def parseExp (cs : List Char) : Option (List Char × List Char) :=
  match cs with
  | c :: r =>
    if c == 'e' || c == 'E' then
      let sp : List Char × List Char :=
        match r with
        | '+' :: r2 => (['+'], r2)
        | '-' :: r2 => (['-'], r2)
        | _ => ([], r)
      let p := jsonDigits sp.2
      if p.1.isEmpty then none else some (c :: (sp.1 ++ p.1), p.2)
    else some ([], cs)
  | [] => some ([], [])

/-- A JSON number token (sign, integer part, fraction, exponent). -/
def parseNumberTok (cs : List Char) : Option (List Char × List Char) :=
  let sp : List Char × List Char :=
    match cs with
    | '-' :: r => (['-'], r)
    | _ => ([], cs)
  match sp.2 with
  | '0' :: r =>
    match parseFrac r with
    | some (f, r1) =>
      match parseExp r1 with
      | some (e, r2) => some (sp.1 ++ '0' :: (f ++ e), r2)
      | none => none
    | none => none
  | c :: _ =>
    if c.isDigit then
      let d := jsonDigits sp.2
      match parseFrac d.2 with
      | some (f, r1) =>
        match parseExp r1 with
        | some (e, r2) => some (sp.1 ++ d.1 ++ f ++ e, r2)
        | none => none
      | none => none
    else none
  | [] => none

mutual

/-- One JSON value. `fuel` bounds the recursion; `jsonParse` supplies enough
of it for any input. -/
def parseVal (fuel : Nat) (cs : List Char) : Option (Json × List Char) :=
  match fuel with
  | 0 => none
  | fuel + 1 =>
    match skipWs cs with
    | 'n' :: 'u' :: 'l' :: 'l' :: r => some (.null, r)
    | 't' :: 'r' :: 'u' :: 'e' :: r => some (.bool true, r)
    | 'f' :: 'a' :: 'l' :: 's' :: 'e' :: r => some (.bool false, r)
    | '\"' :: r =>
      match parseStringBody [] r with
      | some (s, r2) => some (.str s, r2)
      | none => none
    | '[' :: r =>
      match skipWs r with
      | ']' :: r2 => some (.arr [], r2)
      | _ => parseElems fuel (skipWs r) []
    | '{' :: r =>
      match skipWs r with
      | '}' :: r2 => some (.obj [], r2)
      | _ => parseMembers fuel (skipWs r) []
    | c :: r =>
      if c == '-' || c.isDigit then
        match parseNumberTok (c :: r) with
        | some (tok, r2) => some (.num (String.mk tok), r2)
        | none => none
      else none
    | [] => none

/-- The elements of a JSON array, after the opening bracket. -/
def parseElems (fuel : Nat) (cs : List Char) (acc : List Json) : Option (Json × List Char) :=
  match fuel with
  | 0 => none
  | fuel + 1 =>
    match parseVal fuel cs with
    | none => none
    | some (v, r) =>
      match skipWs r with
      | ',' :: r2 => parseElems fuel r2 (v :: acc)
      | ']' :: r2 => some (.arr (v :: acc).reverse, r2)
      | _ => none

/-- The members of a JSON object, after the opening brace. -/
def parseMembers (fuel : Nat) (cs : List Char) (acc : List (String × Json)) :
    Option (Json × List Char) :=
  match fuel with
  | 0 => none
  | fuel + 1 =>
    match skipWs cs with
    | '\"' :: r =>
      match parseStringBody [] r with
      | none => none
      | some (k, r1) =>
        match skipWs r1 with
        | ':' :: r2 =>
          match parseVal fuel r2 with
          | none => none
          | some (v, r3) =>
            match skipWs r3 with
            | ',' :: r4 => parseMembers fuel r4 ((k, v) :: acc)
            | '}' :: r4 => some (.obj ((k, v) :: acc).reverse, r4)
            | _ => none
        | _ => none
    | _ => none

end

/-- `JSON.parse(s)`: `none` stands for a thrown `SyntaxError`. The whole
input must be consumed up to trailing whitespace. -/
def jsonParse (s : String) : Option Json :=
  match parseVal (2 * s.data.length + 2) s.data with
  | some (v, rest) => if (skipWs rest).isEmpty then some v else none
  | none => none

/-! ## TranscriptionService (services/transcription-service.js) -/

/-- The finalizer's mutable state: `this.finalResult` and `this.speechFinal`. -/
structure SttState where
  finalResult : String
  speechFinal : Bool
deriving Repr, DecidableEq

/-- A Deepgram event as the handler reads it: a `Results` transcript with
`is_final`, `speech_final` and the first alternative's transcript text, or
an `UtteranceEnd` signal. -/
inductive DgEvent where
  | transcript (isFinal : Bool) (speechFinal : Bool) (text : String)
  | utteranceEnd
deriving Repr, DecidableEq

/-- One step of the `Transcript`/`UtteranceEnd` listener of
`setupEventListeners`: the next state, the `"transcription"` emissions and
the `"utterance"` (interim) emissions, in order. -/
def handleDgEvent (st : SttState) : DgEvent → SttState × List String × List String
  | .utteranceEnd =>
    if st.speechFinal = false ∧ 0 < st.finalResult.data.length then
      (⟨"", st.speechFinal⟩, [st.finalResult], [])
    else
      (st, [], [])
  | .transcript isFinal speechFinal text =>
    if isFinal = true ∧ 0 < (jsTrim text).data.length then
      let acc := st.finalResult ++ text ++ " "
      if speechFinal = true then (⟨"", true⟩, [acc], [])
      else (⟨acc, false⟩, [], [])
    else if 0 < (jsTrim text).data.length then
      (st, [], [text])
    else
      (st, [], [])

/-- Run the listener over a sequence of Deepgram events. -/
def runDgEvents (st : SttState) : List DgEvent → SttState × List String × List String
  | [] => (st, [], [])
  | e :: rest =>
    let o := handleDgEvent st e
    let r := runDgEvents o.1 rest
    (r.1, o.2.1 ++ r.2.1, o.2.2 ++ r.2.2)

/-! ## GptService (services/gpt-service.js) -/

/-- One entry of `this.userContext`: `{role, name?, content}`. -/
structure Turn where
  role : String
  name : Option String
  content : String
deriving Repr, DecidableEq

/-- One entry of the tool manifest that the loop reads: the function's name
and its pre-execution announcement `say`. -/
structure ToolDef where
  name : String
  say : String
deriving Repr, DecidableEq

/-- `deltas.tool_calls[0].function`, with `|| ""` already applied: absent
name or argument fragments are the empty string. -/
structure ToolCallDelta where
  name : String
  args : String
deriving Repr, DecidableEq

/-- One streamed chunk as the loop reads it: `content` is
`chunk.choices[0]?.delta?.content || ""`, `toolCalls` is `some` when
`deltas.tool_calls` is present, `finishReason` is
`chunk.choices[0].finish_reason`. -/
structure Chunk where
  content : String
  toolCalls : Option ToolCallDelta
  finishReason : Option String
deriving Repr, DecidableEq

/-- The local variables of one `completion` invocation's streaming loop. -/
structure LoopSt where
  completeResponse : String
  partialResponse : String
  functionName : String
  functionArgs : String
deriving Repr, DecidableEq

/-- The empty initial loop state. -/
def LoopSt.empty : LoopSt := ⟨"", "", "", ""⟩

/-- The service's mutable fields: `this.userContext` and
`this.partialResponseIndex`. -/
structure GptState where
  userContext : List Turn
  partialResponseIndex : Nat
deriving Repr, DecidableEq

/-- A JavaScript exception escaping the orchestrator: a `SyntaxError` from
`JSON.parse`, a `TypeError` from a property access on `undefined`, or the
recursion-depth bound of this embedding (the source recursion is
unbounded). -/
inductive JsErr where
  | parseFail
  | typeFail
  | outOfFuel
deriving Repr, DecidableEq

/-- An observable event of one turn: a `"gptreply"` emission, the warning
log of `validateFunctionArgs`, a tool-function execution, or the recursive
follow-up `this.completion(...)` invocation. -/
inductive GptEv where
  | gptreply (index : Option Nat) (text : String)
  | logWarnArgs (args : String)
  | toolExec (name : String) (args : Option Json) (result : String)
  | followUp (text : String) (role : String) (name : String)

/-- The environment a call runs against: the tool manifest (the functions of
`availableFunctions` are keyed by the same manifest), the tool functions'
return values, and the model's streamed response to a message list. -/
structure Env where
  tools : List ToolDef
  toolImpl : String → Option Json → String
  oracle : List Turn → List Chunk

/-- The phrase-break marker string of the source comparison
`content.trim().slice(-1) === "â€¢"`: the file's bytes hold U+00E2 U+20AC
U+00A2 (the three-character double-encoding of the bullet U+2022). -/
def phraseMarker : String := "â€¢"

/-- `collectToolInformation(deltas)`: a non-empty name fragment overwrites
`functionName`, a non-empty argument fragment is appended to
`functionArgs`. -/
def collectStep (ls : LoopSt) (c : Chunk) : LoopSt :=
  match c.toolCalls with
  | some d =>
    { ls with
      functionName := if d.name ≠ "" then d.name else ls.functionName
      functionArgs := if d.args ≠ "" then ls.functionArgs ++ d.args else ls.functionArgs }
  | none => ls

/-- One non-tool loop iteration's accumulation: tool deltas, then the
chunk's content appended to both `completeResponse` and `partialResponse`. -/
def accStep (ls : LoopSt) (c : Chunk) : LoopSt :=
  let ls1 := collectStep ls c
  { ls1 with
    completeResponse := ls1.completeResponse ++ c.content
    partialResponse := ls1.partialResponse ++ c.content }

/-- `validateFunctionArgs(args)`: `JSON.parse`, and on failure a logged
recovery that re-parses up to the first closing brace when two opening
braces are present; `ok none` is the implicit `undefined` return when at
most one opening brace is present, `error` a propagating exception. -/
def validateFunctionArgs (args : String) : Except JsErr (Option Json) × List GptEv :=
  match jsonParse args with
  | some v => (.ok (some v), [])
  | none =>
    if jsIndexOf args '\x7b' ≠ jsLastIndexOf args '\x7b' then
      match jsonParse (jsSubstring args 0 (jsIndexOf args '\x7d' + 1)) with
      | some v => (.ok (some v), [.logWarnArgs args])
      | none => (.error .parseFail, [.logWarnArgs args])
    else
      (.ok none, [.logWarnArgs args])

/-- `updateUserContext(name, role, text)`: push a turn, with the `name`
field omitted for `"user"`. -/
def updateUserContext (name role text : String) (ctx : List Turn) : List Turn :=
  if name ≠ "user" then ctx ++ [⟨role, some name, text⟩]
  else ctx ++ [⟨role, none, text⟩]

/-- The `for await (const chunk of stream)` loop of `completion`. `recur` is
`this.completion`, already bound to the environment and remaining recursion
budget. Returns the final service state, the events in order, and the loop
variables on normal exit or the escaping exception. -/
def runChunks (env : Env)
    (recur : String → String → String → GptState → GptState × List GptEv × Except JsErr Unit) :
    List Chunk → LoopSt → GptState → GptState × List GptEv × Except JsErr LoopSt
  | [], ls, st => (st, [], .ok ls)
  | c :: rest, ls, st =>
    if c.finishReason = some "tool_calls" then
      let ls1 := collectStep ls c
      match validateFunctionArgs ls1.functionArgs with
      | (.error e, evs2) => (st, evs2, .error e)
      | (.ok vargs, evs2) =>
        match env.tools.find? (fun t => t.name == ls1.functionName) with
        | none => (st, evs2, .error .typeFail)
        | some td =>
          let result := env.toolImpl ls1.functionName vargs
          let st2 : GptState :=
            { st with userContext := updateUserContext ls1.functionName "function" result st.userContext }
          let pre := evs2 ++ [GptEv.gptreply none td.say,
            GptEv.toolExec ls1.functionName vargs result,
            GptEv.followUp result "function" ls1.functionName]
          match recur result "function" ls1.functionName st2 with
          | (st3, nevs, .error e) => (st3, pre ++ nevs, .error e)
          | (st3, nevs, .ok _) =>
            let r := runChunks env recur rest ls1 st3
            (r.1, pre ++ nevs ++ r.2.1, r.2.2)
    else
      let ls2 := accStep ls c
      if jsSliceLast1 (jsTrim c.content) = phraseMarker ∨ c.finishReason = some "stop" then
        let ev := GptEv.gptreply (some st.partialResponseIndex) ls2.partialResponse
        let r := runChunks env recur rest { ls2 with partialResponse := "" }
          { st with partialResponseIndex := st.partialResponseIndex + 1 }
        (r.1, ev :: r.2.1, r.2.2)
      else
        runChunks env recur rest ls2 st

/-- `completion(text, interactionCount, role, name)`: push the incoming
turn, stream the model's reply, and on normal completion push the
accumulated assistant turn. `fuel` bounds the tool-call recursion of this
embedding; `0` reports `outOfFuel`. -/
def completionGo (env : Env) : Nat → String → String → String → GptState →
    GptState × List GptEv × Except JsErr Unit
  | 0, _, _, _, st => (st, [], .error .outOfFuel)
  | fuel + 1, text, role, name, st =>
    let st1 : GptState := { st with userContext := updateUserContext name role text st.userContext }
    let chunks := env.oracle st1.userContext
    match runChunks env (completionGo env fuel) chunks LoopSt.empty st1 with
    | (st2, evs, .error e) => (st2, evs, .error e)
    | (st2, evs, .ok ls) =>
      ({ st2 with userContext := st2.userContext ++ [⟨"assistant", none, ls.completeResponse⟩] },
        evs, .ok ())

/-- `completion(text, interactionCount)` with the default
`role = "user"`, `name = "user"` — the call the transcription handler
makes. -/
def completion (env : Env) (fuel : Nat) (text : String) (st : GptState) :
    GptState × List GptEv × Except JsErr Unit :=
  completionGo env fuel text "user" "user" st

/-- `loadPromptFromFile()`: the seeded system/assistant pair from
`prompt.json` when it loads, else the hard-coded fallback. -/
def loadPromptFromFile (promptData : Option (String × String)) : List Turn :=
  match promptData with
  | some p => [⟨"system", none, p.1⟩, ⟨"assistant", none, p.2⟩]
  | none =>
    [⟨"system", none, "You are a helpful assistant."⟩,
     ⟨"assistant", none, "Hello! How can I help you today?"⟩]

/-- The `GptService` constructor: the loaded prompt context and
`partialResponseIndex = 0`. -/
def GptService.init (promptData : Option (String × String)) : GptState :=
  ⟨loadPromptFromFile promptData, 0⟩

/-- `setCallSid(callSid)`. -/
def setCallSid (callSid : String) (st : GptState) : GptState :=
  { st with userContext := st.userContext ++ [⟨"system", none, "callSid: " ++ callSid⟩] }

/-- `getInitialGreeting()`: the first assistant turn's content with a null
index. -/
def getInitialGreeting (st : GptState) : Option Nat × String :=
  match st.userContext.find? (fun m => m.role == "assistant") with
  | some m => (none, m.content)
  | none => (none, "Hello.")

/-- The sequence indices of the indexed `"gptreply"` emissions, in order
(announcements carry a null index and are skipped). -/
def indexedIndices (evs : List GptEv) : List Nat :=
  evs.filterMap (fun e =>
    match e with
    | .gptreply (some i) _ => some i
    | _ => none)

/-- Whether an event is a `"gptreply"` emission. -/
def isReply : GptEv → Bool
  | .gptreply _ _ => true
  | _ => false

/-- Whether an event is a recursive follow-up completion invocation. -/
def isFollowUp : GptEv → Bool
  | .followUp _ _ _ => true
  | _ => false

/-- How many follow-up completion calls a trace records. -/
def followUpCount (evs : List GptEv) : Nat :=
  (evs.filter isFollowUp).length

/-! ## WebSocket wiring (app.js) -/

/-- The `transcriptionService.on("utterance", ...)` handler over the
connection's `marks` array: the marks afterwards, and the `"clear"`
messages sent to the transport. -/
def utteranceHandler (marks : List String) (text : Option String) : List String × List String :=
  if 0 < marks.length ∧ jsOptLenGt text 5 = true then (marks, ["clear"])
  else (marks, [])

/-- The `msg.event === "mark"` branch of the message handler:
`marks = marks.filter((m) => m !== msg.mark.name)`. -/
def markMessageHandler (marks : List String) (name : String) : List String :=
  marks.filter (fun m => ¬ (m == name))

/-- The consecutive index range `[s, s+1, ..., s+n-1]`. -/
def natRange (s : Nat) : Nat → List Nat
  | 0 => []
  | n + 1 => s :: natRange (s + 1) n

/-- Concatenation of transcript pieces, each followed by the trailing
separator the accumulator appends. -/
def concatSep : List String → String
  | [] => ""
  | t :: rest => t ++ " " ++ concatSep rest

/-- The prompt-file state every demonstration run starts from:
`new GptService()` with the fallback prompt. -/
def demoState : GptState := GptService.init none

/-- A demonstration environment for the tool-call round trip: one configured
tool, and a model that streams a `tool_calls` finish on a user turn and a
plain `stop` reply on a function turn. -/
def envRoundTrip : Env where
  tools := [⟨"lookupPrice", "One moment, I will check the price."⟩]
  toolImpl := fun _ _ => "price: 100"
  oracle := fun ctx =>
    if (ctx.getLast?.map Turn.role) = some "function" then
      [⟨"Ok.", none, some "stop"⟩]
    else
      [⟨"", some ⟨"lookupPrice", "\x7b\"q\":2\x7d"⟩, none⟩, ⟨"", none, some "tool_calls"⟩]

/-- A demonstration environment whose model streams unrecoverably malformed
tool arguments (two opening braces, first-object re-parse fails too). -/
def envBadArgs : Env where
  tools := [⟨"lookupPrice", "One moment."⟩]
  toolImpl := fun _ _ => "price: 100"
  oracle := fun _ => [⟨"", some ⟨"lookupPrice", "\x7b\x7b\x7d"⟩, some "tool_calls"⟩]

/-- As `envBadArgs` with a different malformed argument string (`"{{"`,
whose recovery substring is empty). -/
def envBadArgs2 : Env where
  tools := [⟨"lookupPrice", "One moment."⟩]
  toolImpl := fun _ _ => "price: 100"
  oracle := fun _ => [⟨"", some ⟨"lookupPrice", "\x7b\x7b"⟩, some "tool_calls"⟩]

/-- A demonstration environment whose model streams a reply holding the
phrase-break bullet mid-stream and then finishes normally. -/
def envBullet : Env where
  tools := []
  toolImpl := fun _ _ => ""
  oracle := fun _ => [⟨"Ola •", none, none⟩, ⟨" mundo.", none, some "stop"⟩]

/-- An output of the streaming loop whose indexed emissions are the
consecutive range starting at the incoming `partialResponseIndex`, which
advances by their number. -/
def IndexSpec {α : Type} (st : GptState) (out : GptState × List GptEv × α) : Prop :=
  ∃ k, indexedIndices out.2.1 = natRange st.partialResponseIndex k ∧
    out.1.partialResponseIndex = st.partialResponseIndex + k

/-- An output whose final dialogue log extends the incoming one by a
(possibly empty) appended tail. -/
def CtxExtends {α : Type} (st : GptState) (out : GptState × List GptEv × α) : Prop :=
  ∃ tail, out.1.userContext = st.userContext ++ tail

/-! ## Supporting lemmas -/

/-- The length of a consecutive index range. -/
theorem natRange_len (s n : Nat) : (natRange s n).length = n := by
  induction n generalizing s with
  | zero => rfl
  | succ n ih => simp [natRange, ih]

/-- Consecutive ranges concatenate. -/
theorem natRange_app (s m n : Nat) : natRange s m ++ natRange (s + m) n = natRange s (m + n) := by
  induction m generalizing s with
  | zero => simp [natRange]
  | succ m ih =>
    simp only [natRange, List.cons_append]
    rw [show s + (m + 1) = s + 1 + m by omega, ih]
    rw [show m + 1 + n = m + n + 1 by omega]
    rfl

/-- Each entry of a consecutive range is one more than its predecessor. -/
theorem natRange_chain (s n : Nat) :
    List.Chain' (fun a b => b = a + 1) (natRange s n) := by
  induction n generalizing s with
  | zero => simp [natRange]
  | succ n ih =>
    cases n with
    | zero => simp [natRange]
    | succ m =>
      refine List.Chain'.cons rfl (ih (s + 1))

/-- Strings with the same character data are equal. -/
theorem strExt (a b : String) (h : a.data = b.data) : a = b := by
  cases a; cases b; simp_all

/-- The empty string is a left identity of append. -/
theorem strEmpty_append (s : String) : "" ++ s = s := by
  apply strExt
  simp [String.data_append]

/-- The empty string is a right identity of append. -/
theorem strAppend_empty (s : String) : s ++ "" = s := by
  apply strExt
  simp [String.data_append]

/-- String append is associative. -/
theorem strAppend_assoc (a b c : String) : a ++ b ++ c = a ++ (b ++ c) := by
  apply strExt
  simp [String.data_append]

/-- `slice(-1)` yields at most one character, so it never equals the three-character `phraseMarker`: the source's phrase-break comparison is always false. -/
theorem jsSliceLast1_ne_marker (s : String) : ¬ jsSliceLast1 s = phraseMarker := by
  intro h
  have hlen := congrArg String.length h
  have hm : phraseMarker.length = 3 := rfl
  unfold jsSliceLast1 at hlen
  cases hgl : s.data.getLast? with
  | none => rw [hgl] at hlen; simp at hlen; omega
  | some c =>
    rw [hgl] at hlen
    have h1 : (String.mk [c]).length = 1 := rfl
    rw [h1] at hlen
    omega

/-- Indexed emissions distribute over trace concatenation. -/
theorem indexedIndices_append (xs ys : List GptEv) :
    indexedIndices (xs ++ ys) = indexedIndices xs ++ indexedIndices ys := by
  simp [indexedIndices, List.filterMap_append]

/-- `validateFunctionArgs` only ever logs; it emits no indexed fragment. -/
theorem validate_evs (a : String) :
    indexedIndices (validateFunctionArgs a).2 = [] := by
  unfold validateFunctionArgs
  cases hj : jsonParse a with
  | some v => rfl
  | none =>
    by_cases hb : jsIndexOf a '\x7b' ≠ jsLastIndexOf a '\x7b'
    · rw [if_pos hb]
      cases hs : jsonParse (jsSubstring a 0 (jsIndexOf a '\x7d' + 1)) <;> rfl
    · rw [if_neg hb]; rfl

/-- `updateUserContext` appends exactly one turn. -/
theorem updateUserContext_app (name role text : String) (ctx : List Turn) :
    ∃ x, updateUserContext name role text ctx = ctx ++ [x] := by
  unfold updateUserContext
  by_cases h : name ≠ "user"
  · exact ⟨⟨role, some name, text⟩, by rw [if_pos h]⟩
  · exact ⟨⟨role, none, text⟩, by rw [if_neg h]⟩

/-- Collecting tool deltas leaves `completeResponse` unchanged. -/
theorem collectStep_complete (ls : LoopSt) (c : Chunk) :
    (collectStep ls c).completeResponse = ls.completeResponse := by
  unfold collectStep
  cases c.toolCalls <;> rfl

/-- One unfolding step of `completionGo` at positive fuel. -/
theorem completionGo_succ (env : Env) (fuel : Nat) (text role name : String) (st : GptState) :
    completionGo env (fuel + 1) text role name st =
      match runChunks env (completionGo env fuel)
          (env.oracle (updateUserContext name role text st.userContext)) LoopSt.empty
          ⟨updateUserContext name role text st.userContext, st.partialResponseIndex⟩ with
      | (st2, evs, .error e) => (st2, evs, .error e)
      | (st2, evs, .ok ls) =>
        ({ st2 with userContext := st2.userContext ++ [⟨"assistant", none, ls.completeResponse⟩] },
          evs, .ok ()) := rfl

/-- If every recursive completion satisfies `IndexSpec`, so does the streaming loop: its indexed fragments form the consecutive range starting at the incoming counter. -/
theorem runChunks_index (env : Env)
    (recur : String → String → String → GptState → GptState × List GptEv × Except JsErr Unit)
    (hrec : ∀ t r n st, IndexSpec st (recur t r n st)) :
    ∀ chunks ls st, IndexSpec st (runChunks env recur chunks ls st) := by
  intro chunks
  induction chunks with
  | nil =>
    intro ls st
    exact ⟨0, by simp [runChunks, indexedIndices, natRange], by simp [runChunks]⟩
  | cons c rest ih =>
    intro ls st
    simp only [runChunks]
    generalize collectStep ls c = ls1
    split
    · split
      · rename_i e evs2 hva
        have hva2 : indexedIndices evs2 = [] := by
          have := validate_evs ls1.functionArgs
          rw [hva] at this
          exact this
        exact ⟨0, by simpa [natRange] using hva2, by simp⟩
      · rename_i vargs evs2 hva
        have hva2 : indexedIndices evs2 = [] := by
          have := validate_evs ls1.functionArgs
          rw [hva] at this
          exact this
        split
        · exact ⟨0, by simpa [natRange] using hva2, by simp⟩
        · rename_i td hfind
          have hthree : indexedIndices [GptEv.gptreply none td.say,
              GptEv.toolExec ls1.functionName vargs (env.toolImpl ls1.functionName vargs),
              GptEv.followUp (env.toolImpl ls1.functionName vargs) "function"
                ls1.functionName] = [] := rfl
          split
          · rename_i st3 nevs e heq
            have hspec := hrec (env.toolImpl ls1.functionName vargs) "function" ls1.functionName
              ⟨updateUserContext ls1.functionName "function"
                (env.toolImpl ls1.functionName vargs) st.userContext, st.partialResponseIndex⟩
            rw [heq] at hspec
            obtain ⟨k1, hk1, hk2⟩ := hspec
            simp only at hk1 hk2
            refine ⟨k1, ?_, hk2⟩
            rw [indexedIndices_append, indexedIndices_append, hva2, hthree, hk1]
            rfl
          · rename_i st3 nevs u heq
            have hspec := hrec (env.toolImpl ls1.functionName vargs) "function" ls1.functionName
              ⟨updateUserContext ls1.functionName "function"
                (env.toolImpl ls1.functionName vargs) st.userContext, st.partialResponseIndex⟩
            rw [heq] at hspec
            obtain ⟨k1, hk1, hk2⟩ := hspec
            simp only at hk1 hk2
            obtain ⟨k2, hk3, hk4⟩ := ih ls1 st3
            refine ⟨k1 + k2, ?_, ?_⟩
            · simp only [indexedIndices_append, hva2, hthree, hk1, hk3, List.nil_append,
                List.append_nil, hk2]
              exact natRange_app _ _ _
            · simp only [hk4, hk2]
              omega
    · rename_i hf
      split
      · rename_i hm
        obtain ⟨k, hk1, hk2⟩ := ih { accStep ls c with partialResponse := "" }
          { st with partialResponseIndex := st.partialResponseIndex + 1 }
        simp only at hk1 hk2
        refine ⟨k + 1, ?_, ?_⟩
        · show st.partialResponseIndex ::
            indexedIndices (runChunks env recur rest { accStep ls c with partialResponse := "" }
              { st with partialResponseIndex := st.partialResponseIndex + 1 }).2.1 = _
          rw [hk1]
          rfl
        · simp only [hk2]
          omega
      · exact ih (accStep ls c) st

/-- Every completion call satisfies `IndexSpec`. -/
theorem completionGo_index (env : Env) :
    ∀ fuel text role name st, IndexSpec st (completionGo env fuel text role name st) := by
  intro fuel
  induction fuel with
  | zero =>
    intro text role name st
    exact ⟨0, by simp [completionGo, indexedIndices, natRange], by simp [completionGo]⟩
  | succ fuel ih =>
    intro text role name st
    simp only [completionGo]
    have hrc := runChunks_index env (completionGo env fuel) ih
      (env.oracle (updateUserContext name role text st.userContext)) LoopSt.empty
      ⟨updateUserContext name role text st.userContext, st.partialResponseIndex⟩
    split
    · rename_i st2 evs e heq
      rw [heq] at hrc
      obtain ⟨k, hk1, hk2⟩ := hrc
      simp only at hk1 hk2
      exact ⟨k, hk1, hk2⟩
    · rename_i st2 evs ls heq
      rw [heq] at hrc
      obtain ⟨k, hk1, hk2⟩ := hrc
      simp only at hk1 hk2
      exact ⟨k, hk1, hk2⟩

/-- If every recursive completion only appends to the dialogue log, so does the streaming loop, on every path including errors. -/
theorem runChunks_ctx (env : Env)
    (recur : String → String → String → GptState → GptState × List GptEv × Except JsErr Unit)
    (hrec : ∀ t r n st, CtxExtends st (recur t r n st)) :
    ∀ chunks ls st, CtxExtends st (runChunks env recur chunks ls st) := by
  intro chunks
  induction chunks with
  | nil =>
    intro ls st
    exact ⟨[], by simp [runChunks]⟩
  | cons c rest ih =>
    intro ls st
    simp only [runChunks]
    generalize collectStep ls c = ls1
    split
    · split
      · exact ⟨[], by simp⟩
      · rename_i vargs evs2 hva
        split
        · exact ⟨[], by simp⟩
        · rename_i td hfind
          obtain ⟨x, hx⟩ := updateUserContext_app ls1.functionName "function"
            (env.toolImpl ls1.functionName vargs) st.userContext
          split
          · rename_i st3 nevs e heq
            have hspec := hrec (env.toolImpl ls1.functionName vargs) "function" ls1.functionName
              ⟨updateUserContext ls1.functionName "function"
                (env.toolImpl ls1.functionName vargs) st.userContext, st.partialResponseIndex⟩
            rw [heq] at hspec
            obtain ⟨t1, ht1⟩ := hspec
            simp only at ht1
            refine ⟨[x] ++ t1, ?_⟩
            simp only [ht1, hx, List.append_assoc]
          · rename_i st3 nevs u heq
            have hspec := hrec (env.toolImpl ls1.functionName vargs) "function" ls1.functionName
              ⟨updateUserContext ls1.functionName "function"
                (env.toolImpl ls1.functionName vargs) st.userContext, st.partialResponseIndex⟩
            rw [heq] at hspec
            obtain ⟨t1, ht1⟩ := hspec
            simp only at ht1
            obtain ⟨t2, ht2⟩ := ih ls1 st3
            refine ⟨[x] ++ t1 ++ t2, ?_⟩
            simp only [ht2, ht1, hx, List.append_assoc]
    · split
      · exact ih { accStep ls c with partialResponse := "" }
          { st with partialResponseIndex := st.partialResponseIndex + 1 }
      · exact ih (accStep ls c) st

/-- Every completion call only appends to the dialogue log. -/
theorem completionGo_ctx (env : Env) :
    ∀ fuel text role name st, CtxExtends st (completionGo env fuel text role name st) := by
  intro fuel
  induction fuel with
  | zero =>
    intro text role name st
    exact ⟨[], by simp [completionGo]⟩
  | succ fuel ih =>
    intro text role name st
    simp only [completionGo]
    have hrc := runChunks_ctx env (completionGo env fuel) ih
      (env.oracle (updateUserContext name role text st.userContext)) LoopSt.empty
      ⟨updateUserContext name role text st.userContext, st.partialResponseIndex⟩
    obtain ⟨x, hx⟩ := updateUserContext_app name role text st.userContext
    split
    · rename_i st2 evs e heq
      rw [heq] at hrc
      obtain ⟨t1, ht1⟩ := hrc
      simp only at ht1
      refine ⟨[x] ++ t1, ?_⟩
      simp only [ht1, hx, List.append_assoc]
    · rename_i st2 evs ls heq
      rw [heq] at hrc
      obtain ⟨t1, ht1⟩ := hrc
      simp only at ht1
      refine ⟨[x] ++ t1 ++ [⟨"assistant", none, ls.completeResponse⟩], ?_⟩
      simp only [ht1, hx, List.append_assoc]

/-- Chunks with a null finish reason neither emit (the marker comparison is always false) nor touch the state: the loop just accumulates them. -/
theorem runChunks_skip (env : Env)
    (recur : String → String → String → GptState → GptState × List GptEv × Except JsErr Unit) :
    ∀ cs rest ls st, (∀ c ∈ cs, c.finishReason = none) →
      runChunks env recur (cs ++ rest) ls st = runChunks env recur rest (cs.foldl accStep ls) st := by
  intro cs
  induction cs with
  | nil => intro rest ls st _; rfl
  | cons c cs' ih =>
    intro rest ls st h
    have hc : c.finishReason = none := h c (by simp)
    have hcs' : ∀ x ∈ cs', x.finishReason = none := fun x hx => h x (by simp [hx])
    simp only [List.cons_append, runChunks]
    rw [if_neg (by simp [hc])]
    rw [if_neg (by
      rintro (hm | hs)
      · exact jsSliceLast1_ne_marker _ hm
      · rw [hc] at hs; exact Option.noConfusion hs)]
    simp only [List.append_eq]
    rw [ih rest (accStep ls c) st hcs']
    rfl

/-- A trace of reply emissions records no follow-up call. -/
theorem all_isReply_followUpCount (evs : List GptEv) (h : evs.all isReply = true) :
    followUpCount evs = 0 := by
  induction evs with
  | nil => rfl
  | cons e rest ih =>
    rw [List.all_cons, Bool.and_eq_true] at h
    have he : isFollowUp e = false := by
      cases e <;> simp_all [isReply, isFollowUp]
    simp only [followUpCount, List.filter_cons, he]
    simpa [followUpCount] using ih h.2

/-- A stream with no `tool_calls` finish reason completes normally, emits only `gptreply` events and leaves the dialogue log unchanged. -/
theorem runChunks_notool (env : Env)
    (recur : String → String → String → GptState → GptState × List GptEv × Except JsErr Unit) :
    ∀ chunks ls st, (∀ c ∈ chunks, c.finishReason ≠ some "tool_calls") →
      ∃ evs pri ls2, runChunks env recur chunks ls st =
        ({ st with partialResponseIndex := pri }, evs, .ok ls2) ∧ evs.all isReply = true := by
  intro chunks
  induction chunks with
  | nil =>
    intro ls st _
    exact ⟨[], st.partialResponseIndex, ls, rfl, rfl⟩
  | cons c rest ih =>
    intro ls st h
    have hc : c.finishReason ≠ some "tool_calls" := h c (by simp)
    have hrest : ∀ x ∈ rest, x.finishReason ≠ some "tool_calls" := fun x hx => h x (by simp [hx])
    simp only [runChunks]
    rw [if_neg hc]
    by_cases hm : jsSliceLast1 (jsTrim c.content) = phraseMarker ∨ c.finishReason = some "stop"
    · rw [if_pos hm]
      obtain ⟨evs, pri, ls2, heq, hall⟩ := ih { accStep ls c with partialResponse := "" }
        { st with partialResponseIndex := st.partialResponseIndex + 1 } hrest
      rw [heq]
      exact ⟨_ :: evs, pri, ls2, rfl, by simp [isReply, hall]⟩
    · rw [if_neg hm]
      exact ih (accStep ls c) st hrest

/-- Running the transcript listener from accumulator `acc` over final segments (trim-non-empty texts) closed by a `speechFinal` event emits exactly one transcription: `acc` followed by every text with its trailing separator; the accumulator ends empty. -/
theorem dg_final_sequence : ∀ (ts : List String) (tlast : String) (acc : String) (sf : Bool),
    (∀ t ∈ ts, 0 < (jsTrim t).data.length) → 0 < (jsTrim tlast).data.length →
    runDgEvents ⟨acc, sf⟩
        ((ts.map fun t => DgEvent.transcript true false t) ++ [DgEvent.transcript true true tlast]) =
      (⟨"", true⟩, [acc ++ concatSep (ts ++ [tlast])], []) := by
  intro ts
  induction ts with
  | nil =>
    intro tlast acc sf _ hlast
    simp only [List.map_nil, List.nil_append, runDgEvents, handleDgEvent, hlast, and_true,
      true_and, if_true, List.append_nil, concatSep]
    rw [strAppend_empty, strAppend_assoc]
  | cons t ts' ih =>
    intro tlast acc sf h hlast
    have ht : 0 < (jsTrim t).data.length := h t (by simp)
    have hts' : ∀ x ∈ ts', 0 < (jsTrim x).data.length := fun x hx => h x (by simp [hx])
    simp only [List.map_cons, List.cons_append, runDgEvents, handleDgEvent, ht, and_true,
      true_and, if_true, Bool.false_eq_true, if_false, List.append_eq]
    rw [ih tlast (acc ++ t ++ " ") false hts' hlast]
    simp only [List.nil_append, concatSep]
    rw [strAppend_assoc, strAppend_assoc, strAppend_assoc]

/-! ## The claims -/

/-- C1 (corrected): for every sequence of `isFinal` transcription events whose texts are non-empty after trimming (the code's emptiness test is `text.trim().length > 0`, so whitespace-only text is skipped — `claim_C1_counterexample`), where only the last event carries `speechFinal = true`, exactly one Utterance is emitted containing the concatenation of all the texts in arrival order, each with a trailing separator, and the accumulator is empty afterwards. -/
theorem claim_C1 (ts : List String) (tlast : String) (sf : Bool)
    (h : ∀ t ∈ ts, 0 < (jsTrim t).data.length) (hlast : 0 < (jsTrim tlast).data.length) :
    runDgEvents ⟨"", sf⟩
        ((ts.map fun t => DgEvent.transcript true false t) ++ [DgEvent.transcript true true tlast]) =
      (⟨"", true⟩, [concatSep (ts ++ [tlast])], []) := by
  rw [dg_final_sequence ts tlast "" sf h hlast, strEmpty_append]

/-- C1 (witness): the theorem applied to the two-segment sequence `ola`, `mundo`. -/
theorem claim_C1_witness :
    runDgEvents ⟨"", false⟩
        ((["ola"].map fun t => DgEvent.transcript true false t) ++ [DgEvent.transcript true true "mundo"]) =
      (⟨"", true⟩, [concatSep (["ola"] ++ ["mundo"])], []) :=
  claim_C1 ["ola"] "mundo" false (by decide) (by decide)

/-- C1 (counterexample to the claim as stated): the text `" "` is non-empty, yet a lone `isFinal = speechFinal = true` event carrying it emits no Utterance at all, because the handler requires `text.trim().length > 0`. -/
theorem claim_C1_counterexample :
    (" " : String) ≠ "" ∧
    (runDgEvents ⟨"", false⟩ [DgEvent.transcript true true " "]).2.1 = [] ∧
    (runDgEvents ⟨"", false⟩ [DgEvent.transcript true true " "]).2.1.length ≠ 1 := by
  refine ⟨by decide, by decide, by decide⟩

/-- C2 (confirmed): an `UtteranceEnd` signal arriving while the `speechFinal` flag is false and the accumulator non-empty emits exactly one Utterance carrying the accumulated text and clears the accumulator; a second signal on the now-empty accumulator emits nothing — the fallback is idempotent. -/
theorem claim_C2 (st : SttState) (h1 : st.speechFinal = false) (h2 : st.finalResult ≠ "") :
    handleDgEvent st .utteranceEnd = (⟨"", st.speechFinal⟩, [st.finalResult], []) ∧
    handleDgEvent ⟨"", st.speechFinal⟩ .utteranceEnd = (⟨"", st.speechFinal⟩, [], []) := by
  have hl : 0 < st.finalResult.data.length := by
    rcases hn : st.finalResult.data with _ | ⟨c, cs⟩
    · exact absurd (strExt st.finalResult "" (by simp [hn])) h2
    · simp [hn]
  constructor
  · unfold handleDgEvent
    rw [if_pos ⟨h1, hl⟩]
  · unfold handleDgEvent
    rw [if_neg (by rintro ⟨-, hx⟩; exact Nat.lt_irrefl 0 hx)]

/-- C2 (witness): the theorem applied to the accumulator `"ola "`. -/
theorem claim_C2_witness :
    handleDgEvent ⟨"ola ", false⟩ .utteranceEnd = (⟨"", false⟩, ["ola "], []) ∧
    handleDgEvent ⟨"", false⟩ .utteranceEnd = (⟨"", false⟩, [], []) :=
  claim_C2 ⟨"ola ", false⟩ rfl (by decide)

/-- C3 (corrected): for a model stream ending in `finish_reason = tool_calls` that names a configured tool and carries valid JSON arguments, the orchestrator emits the tool's configured `say` announcement as a null-index fragment before the tool executes and issues exactly one follow-up completion call — but the tool's return value is appended to the dialogue log as a `function`-role turn twice, once at the call site and once again as the follow-up completion's own incoming turn (not exactly once: `claim_C3_counterexample`). -/
theorem claim_C3 (env : Env) (f : Nat) (text : String) (st : GptState)
    (cs : List Chunk) (cf : Chunk) (fname argsStr : String) (v : Json) (td : ToolDef)
    (hstream : env.oracle (updateUserContext "user" "user" text st.userContext) = cs ++ [cf])
    (hcs : ∀ c ∈ cs, c.finishReason = none)
    (hcf : cf.finishReason = some "tool_calls")
    (hname : (collectStep (cs.foldl accStep LoopSt.empty) cf).functionName = fname)
    (hargs : (collectStep (cs.foldl accStep LoopSt.empty) cf).functionArgs = argsStr)
    (hjson : jsonParse argsStr = some v)
    (hfind : env.tools.find? (fun t => t.name == fname) = some td)
    (hnu : fname ≠ "user")
    (hnested : ∀ c ∈ env.oracle
        (updateUserContext fname "function" (env.toolImpl fname (some v))
          (updateUserContext fname "function" (env.toolImpl fname (some v))
            (updateUserContext "user" "user" text st.userContext))),
      c.finishReason ≠ some "tool_calls") :
    ∃ evsN assistantN priN,
      completion env (f + 2) text st =
        (⟨updateUserContext "user" "user" text st.userContext
            ++ [⟨"function", some fname, env.toolImpl fname (some v)⟩,
                ⟨"function", some fname, env.toolImpl fname (some v)⟩,
                ⟨"assistant", none, assistantN⟩,
                ⟨"assistant", none, (cs.foldl accStep LoopSt.empty).completeResponse⟩],
          priN⟩,
         GptEv.gptreply none td.say
           :: GptEv.toolExec fname (some v) (env.toolImpl fname (some v))
           :: GptEv.followUp (env.toolImpl fname (some v)) "function" fname
           :: evsN,
         Except.ok ()) ∧
      evsN.all isReply = true ∧
      followUpCount (GptEv.gptreply none td.say
           :: GptEv.toolExec fname (some v) (env.toolImpl fname (some v))
           :: GptEv.followUp (env.toolImpl fname (some v)) "function" fname
           :: evsN) = 1 := by
  have hupd : updateUserContext fname "function" (env.toolImpl fname (some v))
      = fun ctx => ctx ++ [⟨"function", some fname, env.toolImpl fname (some v)⟩] := by
    funext ctx
    unfold updateUserContext
    rw [if_pos hnu]
  have hv : validateFunctionArgs argsStr = (.ok (some v), []) := by
    unfold validateFunctionArgs
    rw [hjson]
  show ∃ evsN assistantN priN,
    completionGo env (f + 1 + 1) text "user" "user" st = _ ∧ _
  rw [completionGo_succ]
  rw [hstream]
  rw [runChunks_skip env (completionGo env (f + 1)) cs [cf] LoopSt.empty _ hcs]
  simp only [runChunks]
  rw [if_pos hcf, hargs, hname, hv, hfind]
  dsimp only
  rw [completionGo_succ]
  simp only [hupd] at hnested ⊢
  obtain ⟨evsN, priN, nls, hrun, hall⟩ := runChunks_notool env (completionGo env f)
    (env.oracle ((updateUserContext "user" "user" text st.userContext
        ++ [⟨"function", some fname, env.toolImpl fname (some v)⟩])
        ++ [⟨"function", some fname, env.toolImpl fname (some v)⟩]))
    LoopSt.empty
    ⟨(updateUserContext "user" "user" text st.userContext
        ++ [⟨"function", some fname, env.toolImpl fname (some v)⟩])
        ++ [⟨"function", some fname, env.toolImpl fname (some v)⟩], st.partialResponseIndex⟩
    (by simpa using hnested)
  rw [hrun]
  refine ⟨evsN, nls.completeResponse, priN, ?_, hall, ?_⟩
  · dsimp only
    rw [collectStep_complete]
    simp [List.append_assoc]
  · simp only [followUpCount, List.filter_cons]
    norm_num [isFollowUp]
    intro a ha
    have hr : isReply a = true := by
      rw [List.all_eq_true] at hall
      exact hall a ha
    cases a <;> simp_all [isReply, isFollowUp]

/-- C3 (witness): the round-trip theorem applied to the concrete `envRoundTrip`. -/
theorem claim_C3_witness :
    ∃ evsN assistantN priN,
      completion envRoundTrip 2 "quero airpods" demoState =
        (⟨updateUserContext "user" "user" "quero airpods" demoState.userContext
            ++ [⟨"function", some "lookupPrice",
                  envRoundTrip.toolImpl "lookupPrice" (some (Json.obj [("q", Json.num "2")]))⟩,
                ⟨"function", some "lookupPrice",
                  envRoundTrip.toolImpl "lookupPrice" (some (Json.obj [("q", Json.num "2")]))⟩,
                ⟨"assistant", none, assistantN⟩,
                ⟨"assistant", none,
                  (([⟨"", some ⟨"lookupPrice", "\x7b\"q\":2\x7d"⟩, none⟩] :
                      List Chunk).foldl accStep LoopSt.empty).completeResponse⟩],
          priN⟩,
         GptEv.gptreply none "One moment, I will check the price."
           :: GptEv.toolExec "lookupPrice" (some (Json.obj [("q", Json.num "2")]))
                (envRoundTrip.toolImpl "lookupPrice" (some (Json.obj [("q", Json.num "2")])))
           :: GptEv.followUp
                (envRoundTrip.toolImpl "lookupPrice" (some (Json.obj [("q", Json.num "2")])))
                "function" "lookupPrice"
           :: evsN,
         Except.ok ()) ∧
      evsN.all isReply = true ∧
      followUpCount (GptEv.gptreply none "One moment, I will check the price."
           :: GptEv.toolExec "lookupPrice" (some (Json.obj [("q", Json.num "2")]))
                (envRoundTrip.toolImpl "lookupPrice" (some (Json.obj [("q", Json.num "2")])))
           :: GptEv.followUp
                (envRoundTrip.toolImpl "lookupPrice" (some (Json.obj [("q", Json.num "2")])))
                "function" "lookupPrice"
           :: evsN) = 1 :=
  claim_C3 envRoundTrip 0 "quero airpods" demoState
    [⟨"", some ⟨"lookupPrice", "\x7b\"q\":2\x7d"⟩, none⟩] ⟨"", none, some "tool_calls"⟩
    "lookupPrice" "\x7b\"q\":2\x7d" (Json.obj [("q", Json.num "2")])
    ⟨"lookupPrice", "One moment, I will check the price."⟩
    rfl (by decide) rfl rfl rfl rfl rfl (by decide) (by decide)

/-- C3 (counterexample to `exactly one function-role turn`): a concrete tool-call round trip against `envRoundTrip` (stream ending in `tool_calls`, configured tool, valid JSON arguments) appends two function-role turns to the dialogue log, not one. -/
theorem claim_C3_counterexample :
    ((((completion envRoundTrip 2 "quero airpods" demoState).1.userContext).drop
        demoState.userContext.length).filter (fun t => t.role == "function")).length = 2 ∧
    ((((completion envRoundTrip 2 "quero airpods" demoState).1.userContext).drop
        demoState.userContext.length).filter (fun t => t.role == "function")).length ≠ 1 := by
  exact ⟨by decide, by decide⟩

/-- C4 (confirmed): the duplicated-JSON argument string `"\x7b\"a\":1\x7d\x7b\"a\":1\x7d"` fails `JSON.parse`, and `validateFunctionArgs` recovers by re-parsing only up to the first closing brace, returning the object with `a = 1` together with the logged warning, raising no error. -/
theorem claim_C4 :
    jsonParse "\x7b\"a\":1\x7d\x7b\"a\":1\x7d" = none ∧
    validateFunctionArgs "\x7b\"a\":1\x7d\x7b\"a\":1\x7d" =
      (.ok (some (Json.obj [("a", Json.num "1")])),
        [GptEv.logWarnArgs "\x7b\"a\":1\x7d\x7b\"a\":1\x7d"]) :=
  ⟨rfl, rfl⟩

/-- C5 (corrected): when the tool-argument string fails to parse as JSON, contains at least two opening braces (so the single-object recovery is attempted) and the recovery re-parse also fails, the warning is logged and the tool is not executed and no tool turn is appended — but the call is not suppressed: the `JSON.parse` error propagates out of `validateFunctionArgs` and aborts the completion turn, so the error is raised to the caller and the turn's assistant push never happens. -/
theorem claim_C5 (env : Env) (f : Nat) (text : String) (st : GptState)
    (cs : List Chunk) (cf : Chunk) (argsStr : String)
    (hstream : env.oracle (updateUserContext "user" "user" text st.userContext) = cs ++ [cf])
    (hcs : ∀ c ∈ cs, c.finishReason = none)
    (hcf : cf.finishReason = some "tool_calls")
    (hargs : (collectStep (cs.foldl accStep LoopSt.empty) cf).functionArgs = argsStr)
    (hjson : jsonParse argsStr = none)
    (hbrace : jsIndexOf argsStr '\x7b' ≠ jsLastIndexOf argsStr '\x7b')
    (hre : jsonParse (jsSubstring argsStr 0 (jsIndexOf argsStr '\x7d' + 1)) = none) :
    completion env (f + 1) text st =
      (⟨updateUserContext "user" "user" text st.userContext, st.partialResponseIndex⟩,
        [GptEv.logWarnArgs argsStr], .error .parseFail) := by
  have hv : validateFunctionArgs argsStr = (.error .parseFail, [.logWarnArgs argsStr]) := by
    unfold validateFunctionArgs
    rw [hjson, if_pos hbrace, hre]
  show completionGo env (f + 1) text "user" "user" st = _
  rw [completionGo_succ]
  rw [hstream]
  rw [runChunks_skip env (completionGo env f) cs [cf] LoopSt.empty _ hcs]
  simp only [runChunks]
  rw [if_pos hcf, hargs, hv]

/-- C5 (witness): the theorem applied to `envBadArgs2`, whose argument string `"\x7b\x7b"` has an empty recovery substring. -/
theorem claim_C5_witness :
    completion envBadArgs2 1 "oi" demoState =
      (⟨updateUserContext "user" "user" "oi" demoState.userContext,
          demoState.partialResponseIndex⟩,
        [GptEv.logWarnArgs "\x7b\x7b"], .error .parseFail) :=
  claim_C5 envBadArgs2 0 "oi" demoState [] ⟨"", some ⟨"lookupPrice", "\x7b\x7b"⟩, some "tool_calls"⟩
    "\x7b\x7b" rfl (by decide) rfl rfl rfl (by decide) rfl

/-- C5 (counterexample to `no error is raised to the caller`): with the argument string `"\x7b\x7b\x7d"` both the parse and the recovery re-parse fail, and `completion` returns the propagating parse error instead of continuing. -/
theorem claim_C5_counterexample :
    jsonParse "\x7b\x7b\x7d" = none ∧
    jsonParse (jsSubstring "\x7b\x7b\x7d" 0 (jsIndexOf "\x7b\x7b\x7d" '\x7d' + 1)) = none ∧
    completion envBadArgs 1 "oi" demoState =
      (⟨demoState.userContext ++ [⟨"user", none, "oi"⟩], 0⟩,
        [GptEv.logWarnArgs "\x7b\x7b\x7d"], .error .parseFail) :=
  ⟨rfl, rfl, rfl⟩

/-- C6 (code_bug, evaluating the code at the failing input): the phrase-break branch of the fragment emitter is dead — it compares the at-most-one-character `content.trim().slice(-1)` with the three-character `phraseMarker` (`"â€¢"`, the double-encoded bullet), which never matches — so a reply containing the bullet marker mid-stream is emitted as a single fragment at `finish_reason = stop` rather than split at the marker. -/
theorem claim_C6 :
    completion envBullet 1 "oi" demoState =
      (⟨updateUserContext "user" "user" "oi" demoState.userContext
          ++ [⟨"assistant", none, "Ola • mundo."⟩], 1⟩,
        [GptEv.gptreply (some 0) "Ola • mundo."], .ok ()) ∧
    (completion envBullet 1 "oi" demoState).2.1.length = 1 ∧
    jsSliceLast1 (jsTrim "Ola •") = "•" ∧
    phraseMarker ≠ "•" :=
  ⟨rfl, rfl, rfl, by decide⟩

/-- C7 (corrected): when interim transcript text longer than 5 characters arrives while at least one playback mark is outstanding, the handler issues exactly one `clear` flush to the transport but leaves the outstanding-marks list unchanged (marks are only removed by the transport's `mark` acknowledgments, `markMessageHandler`); with zero marks outstanding, or text at or below the threshold, nothing is sent and the state is unchanged. -/
theorem claim_C7 (marks : List String) (text : Option String) :
    utteranceHandler marks text =
      (marks, if 0 < marks.length ∧ jsOptLenGt text 5 = true then ["clear"] else []) := by
  unfold utteranceHandler
  by_cases h : 0 < marks.length ∧ jsOptLenGt text 5 = true
  · rw [if_pos h, if_pos h]
  · rw [if_neg h, if_neg h]

/-- C7 (counterexample to `clears all outstanding marks`): an interruption with one outstanding mark sends the flush yet leaves the marks list non-empty. -/
theorem claim_C7_counterexample :
    utteranceHandler ["chunk0"] (some "quero o") = (["chunk0"], ["clear"]) ∧
    (utteranceHandler ["chunk0"] (some "quero o")).1 ≠ [] := by
  exact ⟨by decide, by decide⟩

/-- C8 (confirmed): within any single agent turn — one `completionGo` call including its tool-call recursion — the sequence indices of the indexed `gptreply` fragments (announcements carry a null index and are excluded) are gap-free and strictly increasing: each is exactly one greater than the previous. -/
theorem claim_C8 (env : Env) (fuel : Nat) (text role name : String) (st : GptState) :
    List.Chain' (fun a b => b = a + 1)
      (indexedIndices (completionGo env fuel text role name st).2.1) := by
  obtain ⟨k, hk1, -⟩ := completionGo_index env fuel text role name st
  rw [hk1]
  exact natRange_chain _ _

/-- C9 (confirmed): the dialogue-turn log only grows — `completion` (including its tool-call recursion and every error path), `setCallSid` and `updateUserContext` each only append to `userContext`, so any earlier log state is a prefix of any later one. -/
theorem claim_C9 :
    (∀ env fuel text role name st, ∃ tail,
      (completionGo env fuel text role name st).1.userContext = st.userContext ++ tail) ∧
    (∀ sid st, (setCallSid sid st).userContext =
      st.userContext ++ [⟨"system", none, "callSid: " ++ sid⟩]) ∧
    (∀ n r t ctx, ∃ x, updateUserContext n r t ctx = ctx ++ [x]) := by
  refine ⟨?_, fun sid st => rfl, fun n r t ctx => updateUserContext_app n r t ctx⟩
  intro env fuel text role name st
  obtain ⟨tl, htl⟩ := completionGo_ctx env fuel text role name st
  exact ⟨tl, htl⟩

/-- C10 (confirmed): `partialResponseIndex` is 0 at construction and is only ever incremented — after any `completion` call it equals the incoming value plus the number of indexed fragments emitted, and `setCallSid` leaves it untouched — so fragment indices keep increasing across successive turns of one call rather than restarting. -/
theorem claim_C10 :
    (∀ pd, (GptService.init pd).partialResponseIndex = 0) ∧
    (∀ env fuel text role name st,
      (completionGo env fuel text role name st).1.partialResponseIndex =
        st.partialResponseIndex +
          (indexedIndices (completionGo env fuel text role name st).2.1).length) ∧
    (∀ sid st, (setCallSid sid st).partialResponseIndex = st.partialResponseIndex) := by
  refine ⟨fun pd => rfl, ?_, fun sid st => rfl⟩
  intro env fuel text role name st
  obtain ⟨k, hk1, hk2⟩ := completionGo_index env fuel text role name st
  rw [hk2, hk1, natRange_len]
